import Mathlib

/-!
Shallow embedding of `binance_exporter.py` (the Binance prometheus exporter):
the request signer (`BinanceCollector._signature`), the clock-sync helper
(`BinanceCollector._timestamp`), the API gateway (`BinanceCollector.api_call`),
the static metric catalog (`METRICS`) and the collector/normalizer
(`BinanceCollector.get_wallets`).

Python dicts are modelled as insertion-ordered association lists, Python
exceptions and `os._exit(1)` both as `Except.error` (in either case the
snapshot computation stops with no partial result), machine words as `Nat`
with explicit `% 2 ^ 32`, and Python floats as exact rationals extended with
infinities and nan.  The HTTP layer is abstracted by an `ApiResponse` oracle
carrying the status code, the raw body text, and the outcome of `json.loads`
on that text; requests the code would issue are reified as `HttpRequest`
values.
-/

namespace BinanceExporter

/-! ## Ordered dictionaries (Python `dict`) -/

/-- Python dicts preserve insertion order; an ordered association list models
them. -/
abbrev AList (α : Type) := List (String × α)

/-- The keys of a dict, in insertion order. -/
def dictKeys {α : Type} (d : AList α) : List String := d.map Prod.fst

/-- Python `d[k]`: the value at the first (and in a real dict, only)
occurrence of `k`. -/
def dictGet {α : Type} (d : AList α) (k : String) : Option α :=
  match d with
  | [] => none
  | (k0, v0) :: rest => if k0 = k then some v0 else dictGet rest k

/-- Python `d[k] = v`: update in place when the key is present, append
otherwise. -/
def dictSet {α : Type} (d : AList α) (k : String) (v : α) : AList α :=
  match d with
  | [] => [(k, v)]
  | (k0, v0) :: rest => if k0 = k then (k0, v) :: rest else (k0, v0) :: dictSet rest k v

/-- Python `d |= e`: assign every entry of `e` into `d`, in `e`'s order. -/
def dictUnion {α : Type} (d e : AList α) : AList α :=
  e.foldl (fun acc kv => dictSet acc kv.1 kv.2) d

/-! ## Byte-level encodings -/

/-- UTF-8 bytes of one character (what `str.encode("utf-8")` emits for it). -/
def utf8Char (c : Char) : List Nat :=
  let n := c.toNat
  if n < 128 then [n]
  else if n < 2048 then [192 + n / 64, 128 + n % 64]
  else if n < 65536 then [224 + n / 4096, 128 + n / 64 % 64, 128 + n % 64]
  else [240 + n / 262144, 128 + n / 4096 % 64, 128 + n / 64 % 64, 128 + n % 64]

/-- UTF-8 bytes of a string. -/
def utf8 (s : String) : List Nat := (s.data.map utf8Char).flatten

/-- Lower-case hexadecimal digit for a nibble. -/
def hexDigitLower (n : Nat) : Char :=
  if n < 10 then Char.ofNat (48 + n) else Char.ofNat (87 + n)

/-- Upper-case hexadecimal digit for a nibble. -/
def hexDigitUpper (n : Nat) : Char :=
  if n < 10 then Char.ofNat (48 + n) else Char.ofNat (55 + n)

/-- The two lower-case hex digits of a byte. -/
def byteHexLower (b : Nat) : List Char := [hexDigitLower (b / 16 % 16), hexDigitLower (b % 16)]

/-- Lower-case hex string of a byte sequence (Python `hexdigest`). -/
def hexDigest (bs : List Nat) : String := String.mk (bs.map byteHexLower).flatten

/-! ## Percent-encoding (`urllib.parse.urlencode`, `quote_plus`) -/

/-- Bytes `quote_plus` leaves as-is: ASCII letters, digits, and `_.-~`. -/
def safeByte (b : Nat) : Bool :=
  (65 ≤ b && b ≤ 90) || (97 ≤ b && b ≤ 122) || (48 ≤ b && b ≤ 57) ||
    b == 95 || b == 46 || b == 45 || b == 126

/-- Encoding of one byte under `quote_plus`: space becomes `+`, safe bytes
stand for themselves, everything else becomes `%XX` with upper-case hex. -/
def quotePlusByte (b : Nat) : List Char :=
  if b == 32 then ['+']
  else if safeByte b then [Char.ofNat b]
  else ['%', hexDigitUpper (b / 16 % 16), hexDigitUpper (b % 16)]

/-- Python `urllib.parse.quote_plus` applied to a string (over its UTF-8
bytes). -/
def quotePlus (s : String) : String := String.mk ((utf8 s).map quotePlusByte).flatten

/-- Python `urllib.parse.urlencode` on a dict: `k=v` pairs joined by `&`, in
the dict's insertion order (keys are not sorted). -/
def urlencode (d : AList String) : String :=
  String.intercalate "&" (d.map fun kv => quotePlus kv.1 ++ "=" ++ quotePlus kv.2)

/-! ## SHA-256 over byte lists (words as `Nat` reduced mod `2 ^ 32`) -/

/-- Reduce to a 32-bit word. -/
def w32 (n : Nat) : Nat := n % 4294967296

/-- Bitwise complement of a 32-bit word. -/
def bnot32 (x : Nat) : Nat := 4294967295 - w32 x

/-- Right rotation of a 32-bit word by `n` places. -/
def rotr (n x : Nat) : Nat := w32 (x / 2 ^ n + x * 2 ^ (32 - n))

/-- Big-endian bytes of `n`, `len` bytes wide. -/
def toBytesBE (len n : Nat) : List Nat :=
  (List.range len).map fun i => n / 2 ^ (8 * (len - 1 - i)) % 256

/-- Pack bytes into big-endian 32-bit words, four at a time. -/
def bytesToWords : List Nat → List Nat
  | b0 :: b1 :: b2 :: b3 :: rest =>
      (b0 * 16777216 + b1 * 65536 + b2 * 256 + b3) :: bytesToWords rest
  | _ => []

/-- SHA-256 round constants (FIPS 180-4 section 4.2.2, written in decimal). -/
def sha256K : List Nat :=
  [1116352408, 1899447441, 3049323471, 3921009573, 961987163,
   1508970993, 2453635748, 2870763221, 3624381080, 310598401,
   607225278, 1426881987, 1925078388, 2162078206, 2614888103,
   3248222580, 3835390401, 4022224774, 264347078, 604807628,
   770255983, 1249150122, 1555081692, 1996064986, 2554220882,
   2821834349, 2952996808, 3210313671, 3336571891, 3584528711,
   113926993, 338241895, 666307205, 773529912, 1294757372,
   1396182291, 1695183700, 1986661051, 2177026350, 2456956037,
   2730485921, 2820302411, 3259730800, 3345764771, 3516065817,
   3600352804, 4094571909, 275423344, 430227734, 506948616,
   659060556, 883997877, 958139571, 1322822218, 1537002063,
   1747873779, 1955562222, 2024104815, 2227730452, 2361852424,
   2428436474, 2756734187, 3204031479, 3329325298]

/-- Small sigma 0. -/
def ssig0 (x : Nat) : Nat := rotr 7 x ^^^ rotr 18 x ^^^ x / 8

/-- Small sigma 1. -/
def ssig1 (x : Nat) : Nat := rotr 17 x ^^^ rotr 19 x ^^^ x / 1024

/-- Big sigma 0. -/
def bsig0 (x : Nat) : Nat := rotr 2 x ^^^ rotr 13 x ^^^ rotr 22 x

/-- Big sigma 1. -/
def bsig1 (x : Nat) : Nat := rotr 6 x ^^^ rotr 11 x ^^^ rotr 25 x

/-- Extend the 16 block words to the 64-word message schedule. -/
def extendSched (w0 : List Nat) : List Nat :=
  (List.range 48).foldl
    (fun w _ =>
      let n := w.length
      w ++ [w32 (ssig1 (w.getD (n - 2) 0) + w.getD (n - 7) 0 +
                 ssig0 (w.getD (n - 15) 0) + w.getD (n - 16) 0)])
    w0

/-- The eight SHA-256 working variables. -/
structure Sha256State where
  a : Nat
  b : Nat
  c : Nat
  d : Nat
  e : Nat
  f : Nat
  g : Nat
  h : Nat

/-- Initial hash value (FIPS 180-4 section 5.3.3, written in decimal). -/
def sha256H0 : Sha256State :=
  ⟨1779033703, 3144134277, 1013904242, 2773480762,
   1359893119, 2600822924, 528734635, 1541459225⟩

/-- One compression round, fed one `(constant, schedule word)` pair. -/
def sha256Round (st : Sha256State) (kw : Nat × Nat) : Sha256State :=
  let s1 := bsig1 st.e
  let ch := (st.e &&& st.f) ^^^ (bnot32 st.e &&& st.g)
  let t1 := w32 (st.h + s1 + ch + kw.1 + kw.2)
  let s0 := bsig0 st.a
  let mj := (st.a &&& st.b) ^^^ (st.a &&& st.c) ^^^ (st.b &&& st.c)
  let t2 := w32 (s0 + mj)
  ⟨w32 (t1 + t2), st.a, st.b, st.c, w32 (st.d + t1), st.e, st.f, st.g⟩

/-- Process one 64-byte block. -/
def sha256Block (st : Sha256State) (block : List Nat) : Sha256State :=
  let w := extendSched (bytesToWords block)
  let fin := (sha256K.zip w).foldl sha256Round st
  ⟨w32 (st.a + fin.a), w32 (st.b + fin.b), w32 (st.c + fin.c), w32 (st.d + fin.d),
   w32 (st.e + fin.e), w32 (st.f + fin.f), w32 (st.g + fin.g), w32 (st.h + fin.h)⟩

/-- Digest bytes of a final state. -/
def stateBytes (st : Sha256State) : List Nat :=
  toBytesBE 4 st.a ++ toBytesBE 4 st.b ++ toBytesBE 4 st.c ++ toBytesBE 4 st.d ++
    toBytesBE 4 st.e ++ toBytesBE 4 st.f ++ toBytesBE 4 st.g ++ toBytesBE 4 st.h

/-- SHA-256 padding: `0x80`, zeros to 56 mod 64, 8-byte big-endian bit
length. -/
def sha256Pad (msg : List Nat) : List Nat :=
  msg ++ [128] ++ List.replicate ((120 - (msg.length + 1) % 64) % 64) 0 ++
    toBytesBE 8 (8 * msg.length)

/-- Split a byte list into its 64-byte blocks (the input length is always a
multiple of 64 after padding). -/
def blocks64 (l : List Nat) : List (List Nat) :=
  (List.range (l.length / 64)).map fun i => ((l.drop (64 * i)).take 64)

/-- SHA-256 digest (32 bytes) of a byte list. -/
def sha256 (msg : List Nat) : List Nat :=
  stateBytes ((blocks64 (sha256Pad msg)).foldl sha256Block sha256H0)

/-- HMAC-SHA256 (RFC 2104) of `msg` under `key`, both byte lists; digest as 32
bytes. -/
def hmacSha256 (key msg : List Nat) : List Nat :=
  let k0 := if 64 < key.length then sha256 key else key
  let kp := k0 ++ List.replicate (64 - k0.length) 0
  let ipad := kp.map fun b => b ^^^ 54
  let opad := kp.map fun b => b ^^^ 92
  sha256 (opad ++ sha256 (ipad ++ msg))

/-! ## The request signer (`BinanceCollector._signature`) -/

/-- Model of `BinanceCollector._signature`: the lower-case hex digest of
HMAC-SHA256, keyed by the UTF-8 bytes of the secret, over the UTF-8 bytes of
`urlencode(data)`.  The secret is a parameter here because the script reads it
once from the `BINANCE_SECRET` environment variable. -/
def _signature (secret : String) (data : AList String) : String :=
  hexDigest (hmacSha256 (utf8 secret) (utf8 (urlencode data)))

/-! ## Parsed JSON and Python floats -/

/-- Parsed JSON values as `json.loads` yields them: numbers as exact
rationals, objects as insertion-ordered association lists. -/
inductive Json where
  | str (s : String)
  | num (q : ℚ)
  | boolean (b : Bool)
  | null
  | arr (items : List Json)
  | obj (fields : List (String × Json))
  deriving Repr

/-- A Python float as the collector stores it: an exact rational (the model
keeps decimal values exact instead of rounding to binary64, and collapses
signed zero), or a signed infinity, or nan. -/
inductive PyFloat where
  | finite (q : ℚ)
  | infty (neg : Bool)
  | nan
  deriving DecidableEq, Repr

/-- Whitespace `float()` strips around its argument. -/
def isPySpace (c : Char) : Bool :=
  c == ' ' || c == '\t' || c == '\n' || c == '\r' || c == '\x0b' || c == '\x0c'

/-- Strip leading and trailing whitespace. -/
def stripSpaces (l : List Char) : List Char :=
  ((l.dropWhile isPySpace).reverse.dropWhile isPySpace).reverse

/-- Consume `(digit | '_' digit)*` after a first digit has been read:
accumulated value, digit count, rest.  An underscore must sit between two
digits, as in CPython's numeric grammar. -/
def moreDigits : Nat → Nat → List Char → Nat × Nat × List Char
  | acc, cnt, [] => (acc, cnt, [])
  | acc, cnt, [c] =>
    if c.isDigit then (10 * acc + (c.toNat - 48), cnt + 1, [])
    else (acc, cnt, [c])
  | acc, cnt, c :: d :: rest =>
    if c.isDigit then moreDigits (10 * acc + (c.toNat - 48)) (cnt + 1) (d :: rest)
    else if c == '_' && d.isDigit then
      moreDigits (10 * acc + (d.toNat - 48)) (cnt + 1) rest
    else (acc, cnt, c :: d :: rest)

/-- Consume a digit group: value, digit count (0 when the input does not start
with a digit), rest. -/
def digitGroup : List Char → Nat × Nat × List Char
  | [] => (0, 0, [])
  | c :: rest =>
    if c.isDigit then moreDigits (c.toNat - 48) 1 rest else (0, 0, c :: rest)

/-- Consume an optional leading sign; `true` means negative. -/
def parseSign : List Char → Bool × List Char
  | '+' :: r => (false, r)
  | '-' :: r => (true, r)
  | l => (false, l)

/-- Consume an optional exponent `([eE] [+-]? digits)`.  When an `e` is not
followed by digits it is left unconsumed, so the overall parse fails on the
leftover. -/
def parseExp : List Char → Int × List Char
  | [] => (0, [])
  | c :: r =>
    if c == 'e' || c == 'E' then
      let (eneg, r1) := parseSign r
      let (ev, ec, r2) := digitGroup r1
      if ec == 0 then (0, c :: r)
      else ((if eneg then -(ev : Int) else (ev : Int)), r2)
    else (0, c :: r)

/-- The exact rational `m * 10 ^ e`, negated when `neg`. -/
def ratOfParts (neg : Bool) (m : Nat) (e : Int) : ℚ :=
  let s : Int := if neg then -(m : Int) else (m : Int)
  if 0 ≤ e then mkRat (s * ((10 ^ e.toNat : Nat) : Int)) 1
  else mkRat s (10 ^ (-e).toNat)

/-- CPython `float(str)` on the stripped character list: optional sign, then
`inf`, `infinity` or `nan` in any case, or a decimal numeral with optional
fraction and exponent and with underscores allowed between digits.  The model
is restricted to ASCII digits (CPython also accepts non-ASCII decimal digits,
which never occur in the exchange's responses). -/
def parseFloatChars (l : List Char) : Option PyFloat :=
  let (neg, l1) := parseSign l
  let low := l1.map Char.toLower
  if low == "inf".data || low == "infinity".data then some (PyFloat.infty neg)
  else if low == "nan".data then some PyFloat.nan
  else
    let (ival, icnt, l2) := digitGroup l1
    let hasDot : Bool := match l2 with | '.' :: _ => true | _ => false
    let (fval, fcnt, l3) :=
      match l2 with
      | '.' :: r => digitGroup r
      | _ => (0, 0, l2)
    if icnt == 0 && !hasDot then none
    else if icnt + fcnt == 0 then none
    else
      let (e, l4) := parseExp l3
      if l4.isEmpty then
        some (PyFloat.finite (ratOfParts neg (ival * 10 ^ fcnt + fval) (e - fcnt)))
      else none

/-- Python `float(s)` on a string. -/
def pyFloatOfString (s : String) : Option PyFloat := parseFloatChars (stripSpaces s.data)

/-- Python `float(x)` on a parsed JSON value: strings are parsed, numbers pass
through, booleans collapse to 0 or 1, anything else raises `TypeError`. -/
def pyFloatOfJson : Json → Option PyFloat
  | Json.str s => pyFloatOfString s
  | Json.num q => some (PyFloat.finite q)
  | Json.boolean b => some (PyFloat.finite (if b then 1 else 0))
  | _ => none

/-! ## Errors, catalog, HTTP model -/

/-- Why a run of the pipeline stops.  The script's `os._exit(1)` calls (bad
status, invalid method) and an uncaught Python exception are both modelled as
`Except.error`: either way the snapshot computation terminates with no
partial result. -/
inductive Err where
  | invalidMethod
  | badStatus (status : Nat) (text : String)
  | jsonError
  | keyError (k : String)
  | typeError
  | valueError (s : String)
  deriving DecidableEq, Repr

/-- One entry of the script's `METRICS` table. -/
structure MetricSpec where
  name : String
  description : String
  type : String
  key : String
  method : String
  params : AList String
  labels : AList String
  uri : String
  deriving DecidableEq, Inhabited

/-- The shipped metric catalog (`METRICS` in the script, verbatim). -/
def METRICS : List MetricSpec :=
  [{ name := "earn_wallet", description := "Binance Earn Wallet", type := "gauge",
     key := "totalAmount", method := "GET", params := [], labels := [("type", "flexible")],
     uri := "/sapi/v1/simple-earn/flexible/position" },
   { name := "earn_wallet", description := "Binance Earn Wallet", type := "gauge",
     key := "amount", method := "GET", params := [], labels := [("type", "locked")],
     uri := "/sapi/v1/simple-earn/locked/position" },
   { name := "funding_wallet", description := "Binance Funding Wallet", type := "gauge",
     key := "free", method := "POST", params := [], labels := [],
     uri := "/sapi/v1/asset/get-funding-asset" },
   { name := "spot_wallet", description := "Binance Spot Wallet", type := "gauge",
     key := "free", method := "POST", params := [], labels := [],
     uri := "/sapi/v3/asset/getUserAsset" }]

/-- The exchange's REST host (`BINANCE_API_ENDPOINT`). -/
def BINANCE_API_ENDPOINT : String := "https://api.binance.com"

/-- An outbound HTTP request as the script would hand it to `requests`:
`query` models the `params=` argument (appended to the URL query string),
`formBody` the `data=` argument (form-encoded body), which the script never
passes. -/
structure HttpRequest where
  method : String
  url : String
  headers : AList String
  query : AList String
  formBody : AList String
  deriving DecidableEq

/-- One exchange response as the collector observes it: status code, raw body
text, and the outcome of `json.loads` on that text (`none` models a raised
decode error).  `json.loads` is an external library call, so its outcome is
carried by the oracle rather than re-implemented. -/
structure ApiResponse where
  status : Nat
  text : String
  parsed : Option Json

/-- Python `str.lower()` (over the code points, as `str.lower` maps them). -/
def strLower (s : String) : String := String.mk (s.data.map Char.toLower)

/-- Whether `pat` starts `l`. -/
def listStartsWith : List Char → List Char → Bool
  | [], _ => true
  | _ :: _, [] => false
  | a :: as, b :: bs => a == b && listStartsWith as bs

/-- Whether `pat` occurs somewhere in the list. -/
def containsAt (pat : List Char) : List Char → Bool
  | [] => listStartsWith pat []
  | c :: rest => listStartsWith pat (c :: rest) || containsAt pat rest

/-- Python `pat in s` on strings: substring test. -/
def strContains (s pat : String) : Bool := containsAt pat.data s.data

/-- Python subscript `j[k]`: field of an object, `KeyError` when absent,
`TypeError` when `j` is not an object. -/
def jsonGet (j : Json) (k : String) : Except Err Json :=
  match j with
  | Json.obj fields =>
    match dictGet fields k with
    | some v => Except.ok v
    | none => Except.error (Err.keyError k)
  | _ => Except.error Err.typeError

/-- The parsed body, or the decode error `json.loads` raises. -/
def parsedOf (resp : ApiResponse) : Except Err Json :=
  match resp.parsed with
  | some j => Except.ok j
  | none => Except.error Err.jsonError

/-! ## Clock sync (`BinanceCollector._timestamp`) -/

/-- The single unauthenticated request `_timestamp` issues:
`requests.get(f"{BINANCE_API_ENDPOINT}/api/v3/time", timeout=2)`. -/
def timeRequest : HttpRequest :=
  { method := "GET", url := BINANCE_API_ENDPOINT ++ "/api/v3/time",
    headers := [], query := [], formBody := [] }

/-- The `timeout=` argument of that request, in seconds. -/
def timeRequestTimeout : Nat := 2

/-- Model of `BinanceCollector._timestamp`:
`json.loads(requests.get(...).text)["serverTime"]`.  Nothing in the source
reads `status_code`, so the response status cannot influence the result. -/
def _timestamp (resp : ApiResponse) : Except Err Json :=
  match parsedOf resp with
  | Except.error e => Except.error e
  | Except.ok j => jsonGet j "serverTime"

/-! ## API gateway (`BinanceCollector.api_call`) -/

/-- The parameter dict `api_call` builds before signing:
`data = {"timestamp": timestamp}; data |= params`. -/
def apiCallData (ts : Int) (params : AList String) : AList String :=
  dictUnion [("timestamp", toString ts)] params

/-- The dict after `data["signature"] = self._signature(data)`: the signature
is computed over the pre-assignment dict. -/
def apiCallSigned (secret : String) (ts : Int) (params : AList String) : AList String :=
  dictSet (apiCallData ts params) "signature" (_signature secret (apiCallData ts params))

/-- The request `api_call` issues: GET and POST both pass the signed dict as
`params=` (query string) with the API key in the `X-MBX-APIKEY` header and
`timeout=2`; any other method logs and exits. -/
def apiCallRequest (secret key method uri : String) (params : AList String) (ts : Int) :
    Except Err HttpRequest :=
  if method = "GET" ∨ method = "POST" then
    Except.ok { method := method, url := BINANCE_API_ENDPOINT ++ uri,
                headers := [("X-MBX-APIKEY", key)],
                query := apiCallSigned secret ts params, formBody := [] }
  else Except.error Err.invalidMethod

/-- The `timeout=` argument of every gateway call, in seconds. -/
def apiCallTimeout : Nat := 2

/-- Status handling at the end of `api_call`: any status other than exactly
200 logs the body and exits the process; a 200 returns the raw body text
unmodified. -/
def apiCallResult (method : String) (resp : ApiResponse) : Except Err String :=
  if method = "GET" ∨ method = "POST" then
    if resp.status ≠ 200 then Except.error (Err.badStatus resp.status resp.text)
    else Except.ok resp.text
  else Except.error Err.invalidMethod

/-- Model of `BinanceCollector.api_call` end to end: the issued request
together with the returned raw body. -/
def api_call (secret key method uri : String) (params : AList String) (ts : Int)
    (resp : ApiResponse) : Except Err (HttpRequest × String) :=
  match apiCallRequest secret key method uri params ts with
  | Except.error e => Except.error e
  | Except.ok req =>
    match apiCallResult method resp with
    | Except.error e => Except.error e
    | Except.ok body => Except.ok (req, body)

/-! ## Collector (`BinanceCollector.get_wallets`) -/

/-- One normalized metric record, as appended by `get_wallets`.  Label values
are the Python objects stored in the dict: strings from the catalog, arbitrary
JSON values from the response's `asset` field. -/
structure Record where
  name : String
  value : PyFloat
  description : String
  type : String
  labels : AList Json
  deriving Repr

/-- The unwrap step of `get_wallets`:
`if "simple-earn" in metric["uri"]: wallet = wallet["rows"]`. -/
def unwrapStep (m : MetricSpec) (body : Json) : Except Err Json :=
  if strContains m.uri "simple-earn" then jsonGet body "rows" else Except.ok body

/-- Python `for item in wallet`: a list iterates its items; an empty object or
empty string iterates nothing; any other shape raises before a record is
appended (`TypeError` subscripting a key string or character, or iterating a
number). -/
def asItems : Json → Except Err (List Json)
  | Json.arr l => Except.ok l
  | Json.obj [] => Except.ok []
  | Json.obj (_ :: _) => Except.error Err.typeError
  | Json.str s => if s.isEmpty then Except.ok [] else Except.error Err.typeError
  | _ => Except.error Err.typeError

/-- Which error `float(x)` raises when conversion fails: `ValueError` on a
string, `TypeError` otherwise. -/
def floatErr : Json → Err
  | Json.str s => Err.valueError s
  | _ => Err.typeError

/-- The body of the item loop in `get_wallets`: fetch the asset, build the
labels (job and asset first, then the spec's fixed labels), then build the
record with the parsed value field; the first failing step raises. -/
def processItem (name : String) (m : MetricSpec) (item : Json) : Except Err Record :=
  match jsonGet item "asset" with
  | Except.error e => Except.error e
  | Except.ok assetJ =>
    let labels := dictUnion [("job", Json.str name), ("asset", assetJ)]
      (m.labels.map fun kv => (kv.1, Json.str kv.2))
    match jsonGet item m.key with
    | Except.error e => Except.error e
    | Except.ok rawV =>
      match pyFloatOfJson rawV with
      | some v =>
          Except.ok { name := "binance_" ++ strLower m.name, value := v,
                      description := m.description, type := m.type, labels := labels }
      | none => Except.error (floatErr rawV)

/-- The per-entry prefix of the loop body: gateway status check, JSON parse,
unwrap, and the shape check of the iteration. -/
def metricItems (m : MetricSpec) (resp : ApiResponse) : Except Err (List Json) :=
  match apiCallResult m.method resp with
  | Except.error e => Except.error e
  | Except.ok _ =>
    match parsedOf resp with
    | Except.error e => Except.error e
    | Except.ok j =>
      match unwrapStep m j with
      | Except.error e => Except.error e
      | Except.ok w => asItems w

/-- The item loop of one catalog entry: one record per line item, in item
order, aborting at the first failing item. -/
def mapRecords (f : Json → Except Err Record) : List Json → Except Err (List Record)
  | [] => Except.ok []
  | it :: rest =>
    match f it with
    | Except.error e => Except.error e
    | Except.ok r =>
      match mapRecords f rest with
      | Except.error e => Except.error e
      | Except.ok rs => Except.ok (r :: rs)

/-- One `for metric in METRICS` iteration: the records this entry appends. -/
def processMetric (name : String) (m : MetricSpec) (resp : ApiResponse) :
    Except Err (List Record) :=
  match metricItems m resp with
  | Except.error e => Except.error e
  | Except.ok items => mapRecords (processItem name m) items

/-- The loop of `get_wallets` with the accumulated `res` made explicit; the
accumulator is discarded when an iteration raises or exits. -/
def getWalletsAux (name : String) (resps : Nat → ApiResponse) :
    List (Nat × MetricSpec) → List Record → Except Err (List Record)
  | [], acc => Except.ok acc
  | (i, m) :: rest, acc =>
    match processMetric name m (resps i) with
    | Except.error e => Except.error e
    | Except.ok recs => getWalletsAux name resps rest (acc ++ recs)

/-- Model of `BinanceCollector.get_wallets`: walk the catalog in order, one
exchange call per entry (`resps i` is the response the `i`-th call gets), and
return the flat record list. -/
def get_wallets (name : String) (resps : Nat → ApiResponse) : Except Err (List Record) :=
  getWalletsAux name resps METRICS.enum []

/-! ## Dictionary lemmas -/

theorem dictKeys_append {α : Type} (d e : AList α) :
    dictKeys (d ++ e) = dictKeys d ++ dictKeys e := List.map_append _ d e

theorem dictSet_not_mem {α : Type} {d : AList α} {k : String} (v : α)
    (h : k ∉ dictKeys d) : dictSet d k v = d ++ [(k, v)] := by
  induction d with
  | nil => rfl
  | cons kv rest ih =>
    obtain ⟨k0, v0⟩ := kv
    simp only [dictKeys, List.map_cons, List.mem_cons] at h
    push_neg at h
    simp only [dictSet, List.cons_append]
    rw [if_neg fun he => h.1 he.symm, ih h.2]

theorem dictUnion_disjoint {α : Type} {e : AList α} :
    ∀ {d : AList α}, (∀ k ∈ dictKeys e, k ∉ dictKeys d) → (dictKeys e).Nodup →
      dictUnion d e = d ++ e := by
  induction e with
  | nil => intro d _ _; simp [dictUnion]
  | cons kv rest ih =>
    intro d hdisj hnd
    obtain ⟨k, v⟩ := kv
    simp only [dictKeys, List.map_cons, List.nodup_cons] at hnd
    have h1 : k ∉ dictKeys d := hdisj k (List.mem_cons_self _ _)
    have hdisj2 : ∀ k2 ∈ dictKeys rest, k2 ∉ dictKeys (d ++ [(k, v)]) := by
      intro k2 hk2 hk2d
      rw [dictKeys_append] at hk2d
      rcases List.mem_append.mp hk2d with hmem | hmem
      · exact hdisj k2 (List.mem_cons_of_mem _ hk2) hmem
      · have hk2k : k2 = k := by simpa [dictKeys] using hmem
        exact hnd.1 (hk2k ▸ hk2)
    have step : dictUnion d ((k, v) :: rest) = dictUnion (dictSet d k v) rest := rfl
    rw [step, dictSet_not_mem v h1, ih hdisj2 hnd.2, List.append_assoc]
    rfl

theorem dictGet_set_ne {α : Type} (d : AList α) {k2 k : String} (v : α)
    (h : k2 ≠ k) : dictGet (dictSet d k2 v) k = dictGet d k := by
  induction d with
  | nil => simp [dictSet, dictGet, h]
  | cons kv rest ih =>
    obtain ⟨k0, v0⟩ := kv
    by_cases h0 : k0 = k2
    · subst h0
      simp [dictSet, dictGet, h]
    · simp only [dictSet, if_neg h0, dictGet, ih]

theorem dictGet_union_not_mem {α : Type} {e : AList α} :
    ∀ {d : AList α} {k : String}, k ∉ dictKeys e →
      dictGet (dictUnion d e) k = dictGet d k := by
  induction e with
  | nil => intro d k _; rfl
  | cons kv rest ih =>
    intro d k hk
    obtain ⟨k2, v⟩ := kv
    simp only [dictKeys, List.map_cons, List.mem_cons] at hk
    push_neg at hk
    have step : dictUnion d ((k2, v) :: rest) = dictUnion (dictSet d k2 v) rest := rfl
    rw [step, ih hk.2, dictGet_set_ne _ _ fun he => hk.1 he.symm]

/-! ## Digest shape lemmas -/

theorem toBytesBE_length (len n : Nat) : (toBytesBE len n).length = len := by
  simp [toBytesBE]

theorem sha256_length (msg : List Nat) : (sha256 msg).length = 32 := by
  simp [sha256, stateBytes, toBytesBE_length]

theorem hmacSha256_length (key msg : List Nat) : (hmacSha256 key msg).length = 32 :=
  sha256_length _

theorem hexChars_length (bs : List Nat) :
    ((bs.map byteHexLower).flatten).length = 2 * bs.length := by
  induction bs with
  | nil => rfl
  | cons b rest ih =>
    simp only [List.map_cons, List.flatten_cons, List.length_append, ih, byteHexLower,
      List.length_cons, List.length_nil]
    omega

theorem hexDigest_length (bs : List Nat) : (hexDigest bs).length = 2 * bs.length := by
  show ((bs.map byteHexLower).flatten).length = 2 * bs.length
  exact hexChars_length bs

theorem hexDigitLower_mem {n : Nat} (h : n < 16) :
    hexDigitLower n ∈ ("0123456789abcdef").data := by
  interval_cases n <;> decide

theorem hexChars_mem (bs : List Nat) (c : Char)
    (hc : c ∈ (bs.map byteHexLower).flatten) : c ∈ ("0123456789abcdef").data := by
  induction bs with
  | nil => cases hc
  | cons b rest ih =>
    simp only [List.map_cons, List.flatten_cons, List.mem_append] at hc
    rcases hc with hc | hc
    · simp only [byteHexLower, List.mem_cons, List.not_mem_nil, or_false] at hc
      rcases hc with rfl | rfl
      · exact hexDigitLower_mem (Nat.mod_lt _ (by norm_num))
      · exact hexDigitLower_mem (Nat.mod_lt _ (by norm_num))
    · exact ih hc

theorem hexDigest_mem (bs : List Nat) (c : Char) (hc : c ∈ (hexDigest bs).data) :
    c ∈ ("0123456789abcdef").data :=
  hexChars_mem bs c hc

/-! ## C1: the signer -/

/-- C1: `_signature` returns the lower-case hex digest (64 hex characters) of
the HMAC-SHA256, keyed by the secret's UTF-8 bytes, of the standard
URL-encoding of the parameters in their original insertion order; and it is a
pure function of `(secret, data)`. -/
theorem signature_hmac_hex_c1 (secret : String) (data : AList String) :
    _signature secret data
        = hexDigest (hmacSha256 (utf8 secret) (utf8 (urlencode data)))
      ∧ (_signature secret data).length = 64
      ∧ (∀ c ∈ (_signature secret data).data, c ∈ ("0123456789abcdef").data)
      ∧ ∀ (secret2 : String) (data2 : AList String), secret2 = secret → data2 = data →
          _signature secret2 data2 = _signature secret data := by
  refine ⟨rfl, ?_, ?_, ?_⟩
  · show (hexDigest (hmacSha256 (utf8 secret) (utf8 (urlencode data)))).length = 64
    rw [hexDigest_length, hmacSha256_length]
  · exact fun c hc => hexDigest_mem _ c hc
  · rintro s2 d2 rfl rfl
    rfl

/-! ## C2: parameter-set construction in `api_call` -/

/-- C2: `api_call` builds `{timestamp} ∪ extraParams` in that insertion
order, signs exactly that set (which does not contain the `signature` key),
appends the digest under `signature`, and attaches the API key via the
`X-MBX-APIKEY` header. -/
theorem api_call_params_c2 (secret key uri method : String)
    (params : AList String) (ts : Int)
    (hm : method = "GET" ∨ method = "POST")
    (hnd : (dictKeys params).Nodup)
    (hts : "timestamp" ∉ dictKeys params)
    (hsig : "signature" ∉ dictKeys params) :
    apiCallRequest secret key method uri params ts =
      Except.ok { method := method, url := BINANCE_API_ENDPOINT ++ uri,
                  headers := [("X-MBX-APIKEY", key)],
                  query := (("timestamp", toString ts) :: params) ++
                    [("signature",
                      _signature secret (("timestamp", toString ts) :: params))],
                  formBody := [] }
    ∧ "signature" ∉ dictKeys (apiCallData ts params) := by
  have hdata : apiCallData ts params = ("timestamp", toString ts) :: params := by
    show dictUnion [("timestamp", toString ts)] params = _
    rw [dictUnion_disjoint ?disj hnd]
    · rfl
    case disj =>
      intro k hk
      simp only [dictKeys, List.map_cons, List.map_nil, List.mem_singleton]
      exact fun he => hts (he ▸ hk)
  have hsig2 : "signature" ∉ dictKeys (apiCallData ts params) := by
    rw [hdata]
    simp only [dictKeys, List.map_cons, List.mem_cons]
    push_neg
    exact ⟨by decide, hsig⟩
  have hq : apiCallSigned secret ts params =
      (("timestamp", toString ts) :: params) ++
        [("signature", _signature secret (("timestamp", toString ts) :: params))] := by
    show dictSet (apiCallData ts params) "signature"
        (_signature secret (apiCallData ts params)) = _
    rw [dictSet_not_mem _ hsig2, hdata]
  refine ⟨?_, hsig2⟩
  rcases hm with rfl | rfl <;>
    simp [apiCallRequest, hq]

/-- Closed instance of C2 at a concrete call with no extra parameters. -/
theorem api_call_params_c2_witness :
    apiCallRequest "sec" "key" "GET" "/sapi/v3/asset/getUserAsset" [] 1499827319559 =
      Except.ok { method := "GET",
                  url := BINANCE_API_ENDPOINT ++ "/sapi/v3/asset/getUserAsset",
                  headers := [("X-MBX-APIKEY", "key")],
                  query := (("timestamp", toString (1499827319559 : Int)) :: []) ++
                    [("signature",
                      _signature "sec" (("timestamp", toString (1499827319559 : Int)) :: []))],
                  formBody := [] }
    ∧ "signature" ∉ dictKeys (apiCallData 1499827319559 []) :=
  api_call_params_c2 "sec" "key" "/sapi/v3/asset/getUserAsset" "GET" [] 1499827319559
    (Or.inl rfl) List.nodup_nil (List.not_mem_nil _) (List.not_mem_nil _)

/-! ## C3: status handling -/

/-- C3 counterexample: 201 is a 2xx status, yet `api_call` treats it as fatal
instead of proceeding — the code exits on every status other than exactly
200. -/
theorem status_2xx_c3_cex :
    ((200 : Nat) ≤ 201 ∧ (201 : Nat) < 300) ∧
    apiCallResult "GET" ⟨201, "body", none⟩ =
      Except.error (Err.badStatus 201 "body") :=
  ⟨⟨by norm_num, by norm_num⟩, rfl⟩

/-- C3 amended: any status other than exactly 200 is fatal for the whole
process (so the snapshot terminates with no partial result), and a 200
response proceeds with the raw body returned unmodified. -/
theorem status_check_c3 (method : String) (resp : ApiResponse)
    (hm : method = "GET" ∨ method = "POST") :
    (resp.status ≠ 200 →
        apiCallResult method resp = Except.error (Err.badStatus resp.status resp.text))
    ∧ (resp.status = 200 → apiCallResult method resp = Except.ok resp.text) := by
  rcases hm with rfl | rfl <;>
    exact ⟨fun h => by simp [apiCallResult, h], fun h => by simp [apiCallResult, h]⟩

/-- Closed instance of C3 (amended) at a 200 response. -/
theorem status_check_c3_witness :
    ((⟨200, "raw", none⟩ : ApiResponse).status ≠ 200 →
        apiCallResult "GET" ⟨200, "raw", none⟩ =
          Except.error (Err.badStatus (⟨200, "raw", none⟩ : ApiResponse).status
            (⟨200, "raw", none⟩ : ApiResponse).text))
    ∧ ((⟨200, "raw", none⟩ : ApiResponse).status = 200 →
        apiCallResult "GET" ⟨200, "raw", none⟩ = Except.ok "raw") :=
  status_check_c3 "GET" ⟨200, "raw", none⟩ (Or.inl rfl)

/-! ## C7: clock sync -/

/-- C7 counterexample: a 404 response whose body still parses to an object
with a `serverTime` field returns normally — `_timestamp` never inspects the
HTTP status, so a non-200 response is not fatal by itself. -/
theorem timestamp_status_c7_cex :
    (404 : Nat) ≠ 200 ∧
    _timestamp ⟨404, "irrelevant", some (Json.obj [("serverTime", Json.num 123)])⟩ =
      Except.ok (Json.num 123) :=
  ⟨by norm_num, rfl⟩

/-- C7 amended: `_timestamp` performs a single unauthenticated GET to the
fixed time endpoint with a 2-second timeout and returns the body's
`serverTime` field; its outcome depends only on the body (the status is never
examined), it fails exactly when the body does not parse or lacks the field,
and no local clock enters the computation. -/
theorem timestamp_model_c7 (s1 s2 : Nat) (t1 t2 : String) (p : Option Json) (j : Json) :
    _timestamp ⟨s1, t1, p⟩ = _timestamp ⟨s2, t2, p⟩
    ∧ _timestamp ⟨s1, t1, none⟩ = Except.error Err.jsonError
    ∧ _timestamp ⟨s1, t1, some j⟩ = jsonGet j "serverTime"
    ∧ timeRequest.method = "GET"
    ∧ timeRequest.headers = []
    ∧ timeRequest.url = "https://api.binance.com/api/v3/time"
    ∧ timeRequestTimeout ≤ 2 :=
  ⟨rfl, rfl, rfl, rfl, rfl, rfl, Nat.le_refl 2⟩

/-! ## C9: parameter placement -/

/-- The falsifiable content of C9: some POST call places parameters in the
form-encoded body. -/
def postBodyPlacement : Prop :=
  ∃ (secret key uri : String) (params : AList String) (ts : Int) (r : HttpRequest),
    apiCallRequest secret key "POST" uri params ts = Except.ok r ∧ r.formBody ≠ []

/-- C9 counterexample: no POST request ever carries form-body parameters —
the code passes the dict as `params=` (query string) for POST exactly as for
GET, so the form-encoded-body placement variant is not supported for any
endpoint. -/
theorem post_body_c9_cex : ¬ postBodyPlacement := by
  rintro ⟨s, k, u, p, t, r, hr, hb⟩
  rw [apiCallRequest, if_pos (Or.inr rfl)] at hr
  cases hr
  exact hb rfl

/-- C9 amended: for both GET and POST every request puts the full signed
parameter set in the URL query string and leaves the form body empty;
placement does not vary with the endpoint. -/
theorem request_placement_c9 (secret key method uri : String) (params : AList String)
    (ts : Int) (r : HttpRequest)
    (h : apiCallRequest secret key method uri params ts = Except.ok r) :
    r.query = apiCallSigned secret ts params ∧ r.formBody = [] ∧ r.method = method := by
  rw [apiCallRequest] at h
  split at h
  · cases h
    exact ⟨rfl, rfl, rfl⟩
  · cases h

/-- Closed instance of C9 (amended) at a concrete POST call. -/
theorem request_placement_c9_witness :
    apiCallRequest "sec" "key" "POST" "/sapi/v1/asset/get-funding-asset" [] 7 =
      Except.ok { method := "POST",
                  url := BINANCE_API_ENDPOINT ++ "/sapi/v1/asset/get-funding-asset",
                  headers := [("X-MBX-APIKEY", "key")],
                  query := apiCallSigned "sec" 7 [], formBody := [] }
    ∧ ({ method := "POST",
         url := BINANCE_API_ENDPOINT ++ "/sapi/v1/asset/get-funding-asset",
         headers := [("X-MBX-APIKEY", "key")],
         query := apiCallSigned "sec" 7 [], formBody := [] } : HttpRequest).query =
        apiCallSigned "sec" 7 []
    ∧ ({ method := "POST",
         url := BINANCE_API_ENDPOINT ++ "/sapi/v1/asset/get-funding-asset",
         headers := [("X-MBX-APIKEY", "key")],
         query := apiCallSigned "sec" 7 [], formBody := [] } : HttpRequest).formBody = []
    ∧ ({ method := "POST",
         url := BINANCE_API_ENDPOINT ++ "/sapi/v1/asset/get-funding-asset",
         headers := [("X-MBX-APIKEY", "key")],
         query := apiCallSigned "sec" 7 [], formBody := [] } : HttpRequest).method =
        "POST" := by
  have h : apiCallRequest "sec" "key" "POST" "/sapi/v1/asset/get-funding-asset" [] 7 =
      Except.ok { method := "POST",
                  url := BINANCE_API_ENDPOINT ++ "/sapi/v1/asset/get-funding-asset",
                  headers := [("X-MBX-APIKEY", "key")],
                  query := apiCallSigned "sec" 7 [], formBody := [] } := rfl
  have h2 := request_placement_c9 "sec" "key" "POST" "/sapi/v1/asset/get-funding-asset"
    [] 7 _ h
  exact ⟨h, h2.1, h2.2.1, h2.2.2⟩

/-! ## C10: catalog methods -/

/-- C10: every shipped catalog entry's method is GET or POST, so neither the
request builder nor the status handler can take the invalid-method exit for a
catalog-driven call. -/
theorem catalog_methods_c10 (m : MetricSpec) (hm : m ∈ METRICS) :
    (m.method = "GET" ∨ m.method = "POST")
    ∧ (∀ (secret key : String) (params : AList String) (ts : Int),
        apiCallRequest secret key m.method m.uri params ts ≠
          Except.error Err.invalidMethod)
    ∧ ∀ resp : ApiResponse,
        apiCallResult m.method resp ≠ Except.error Err.invalidMethod := by
  have hm2 : m.method = "GET" ∨ m.method = "POST" := by
    fin_cases hm
    · exact Or.inl rfl
    · exact Or.inl rfl
    · exact Or.inr rfl
    · exact Or.inr rfl
  refine ⟨hm2, fun secret key params ts h => ?_, fun resp h => ?_⟩
  · rw [apiCallRequest, if_pos hm2] at h
    cases h
  · rw [apiCallResult, if_pos hm2] at h
    split at h <;> simp at h

/-- Closed instance of C10 at the first catalog entry. -/
theorem catalog_methods_c10_witness :
    (METRICS.getD 0 default ∈ METRICS)
    ∧ (((METRICS.getD 0 default).method = "GET" ∨
          (METRICS.getD 0 default).method = "POST")
        ∧ (∀ (secret key : String) (params : AList String) (ts : Int),
            apiCallRequest secret key (METRICS.getD 0 default).method
              (METRICS.getD 0 default).uri params ts ≠ Except.error Err.invalidMethod)
        ∧ ∀ resp : ApiResponse,
            apiCallResult (METRICS.getD 0 default).method resp ≠
              Except.error Err.invalidMethod) :=
  ⟨by decide, catalog_methods_c10 _ (by decide)⟩

/-! ## Collector structure lemmas -/

theorem dictGet_cons_ne {α : Type} (k0 k : String) (v0 : α) (d : AList α) (h : k0 ≠ k) :
    dictGet ((k0, v0) :: d) k = dictGet d k := by
  simp [dictGet, h]

theorem dictGet_of_mem {α : Type} :
    ∀ {d : AList α}, (dictKeys d).Nodup → ∀ {k : String} {v : α}, (k, v) ∈ d →
      dictGet d k = some v := by
  intro d
  induction d with
  | nil => intro _ k v hm; cases hm
  | cons kv rest ih =>
    intro hnd k v hm
    obtain ⟨k0, v0⟩ := kv
    simp only [dictKeys, List.map_cons, List.nodup_cons] at hnd
    rcases List.mem_cons.mp hm with heq | hmem
    · cases heq
      simp [dictGet]
    · have hk : k ∈ dictKeys rest := List.mem_map_of_mem Prod.fst hmem
      have hne : k0 ≠ k := fun he => hnd.1 (he ▸ hk)
      rw [dictGet_cons_ne _ _ _ _ hne]
      exact ih hnd.2 hmem

theorem getWalletsAux_append (name : String) (resps : Nat → ApiResponse)
    (l : List (Nat × MetricSpec)) :
    ∀ acc : List Record,
      getWalletsAux name resps l acc =
        Except.map (fun out => acc ++ out) (getWalletsAux name resps l []) := by
  induction l with
  | nil => intro acc; simp [getWalletsAux, Except.map]
  | cons im rest ih =>
    intro acc
    obtain ⟨i, m⟩ := im
    simp only [getWalletsAux]
    cases hpm : processMetric name m (resps i) with
    | error e => simp [Except.map]
    | ok recs =>
      dsimp only
      simp only [List.nil_append]
      rw [ih (acc ++ recs), ih recs]
      cases getWalletsAux name resps rest [] with
      | error e => simp [Except.map]
      | ok out => simp [Except.map, List.append_assoc]

theorem getWalletsAux_ok (name : String) (resps : Nat → ApiResponse) :
    ∀ (l : List (Nat × MetricSpec)) (out : List Record),
      getWalletsAux name resps l [] = Except.ok out →
      ∃ recss : List (List Record),
        out = recss.flatten ∧
        List.Forall₂ (fun im rs => processMetric name im.2 (resps im.1) = Except.ok rs)
          l recss := by
  intro l
  induction l with
  | nil =>
    intro out h
    cases h
    exact ⟨[], rfl, List.Forall₂.nil⟩
  | cons im rest ih =>
    intro out h
    obtain ⟨i, m⟩ := im
    simp only [getWalletsAux] at h
    cases hpm : processMetric name m (resps i) with
    | error e => rw [hpm] at h; dsimp only at h; cases h
    | ok recs =>
      rw [hpm] at h
      dsimp only at h
      rw [show ([] : List Record) ++ recs = recs from rfl, getWalletsAux_append] at h
      cases hrest : getWalletsAux name resps rest [] with
      | error e => rw [hrest] at h; dsimp only [Except.map] at h; cases h
      | ok out2 =>
        rw [hrest] at h
        dsimp only [Except.map] at h
        cases h
        obtain ⟨recss, rfl, hfa⟩ := ih out2 hrest
        exact ⟨recs :: recss, by simp, List.Forall₂.cons hpm hfa⟩

theorem getWalletsAux_error (name : String) (resps : Nat → ApiResponse) :
    ∀ (l : List (Nat × MetricSpec)) (i : Nat) (m : MetricSpec), (i, m) ∈ l →
      (∀ recs, processMetric name m (resps i) ≠ Except.ok recs) →
      ∀ acc, ∃ e, getWalletsAux name resps l acc = Except.error e := by
  intro l
  induction l with
  | nil => intro i m him _ _; cases him
  | cons im rest ih =>
    intro i m him hbad acc
    obtain ⟨j, m2⟩ := im
    cases hpm : processMetric name m2 (resps j) with
    | error e => exact ⟨e, by simp only [getWalletsAux, hpm]⟩
    | ok recs =>
      rcases List.mem_cons.mp him with heq | hmem
      · cases heq
        exact absurd hpm (hbad recs)
      · obtain ⟨e, he⟩ := ih i m hmem hbad (acc ++ recs)
        exact ⟨e, by simp only [getWalletsAux, hpm, he]⟩

theorem mapRecords_ok (f : Json → Except Err Record) :
    ∀ (items : List Json) (out : List Record), mapRecords f items = Except.ok out →
      List.Forall₂ (fun it r => f it = Except.ok r) items out := by
  intro items
  induction items with
  | nil =>
    intro out h
    cases h
    exact List.Forall₂.nil
  | cons a rest ih =>
    intro out h
    simp only [mapRecords] at h
    cases hfa : f a with
    | error e => rw [hfa] at h; dsimp only at h; cases h
    | ok r =>
      rw [hfa] at h
      dsimp only at h
      cases hrest : mapRecords f rest with
      | error e => rw [hrest] at h; dsimp only at h; cases h
      | ok rs =>
        rw [hrest] at h
        dsimp only at h
        cases h
        exact List.Forall₂.cons hfa (ih rs hrest)

theorem mapRecords_error (f : Json → Except Err Record) :
    ∀ (items : List Json) (item : Json) (e : Err), item ∈ items →
      f item = Except.error e →
      ∃ e2, mapRecords f items = Except.error e2 := by
  intro items
  induction items with
  | nil => intro item e him _; cases him
  | cons a rest ih =>
    intro item e him hf
    cases hfa : f a with
    | error e2 => exact ⟨e2, by simp only [mapRecords, hfa]⟩
    | ok r =>
      rcases List.mem_cons.mp him with rfl | hmem
      · rw [hfa] at hf; cases hf
      · obtain ⟨e2, h2⟩ := ih item e hmem hf
        exact ⟨e2, by simp only [mapRecords, hfa, h2]⟩

theorem processMetric_ok (name : String) (m : MetricSpec) (resp : ApiResponse)
    (rs : List Record) (h : processMetric name m resp = Except.ok rs) :
    ∃ items, metricItems m resp = Except.ok items ∧
      List.Forall₂ (fun it r => processItem name m it = Except.ok r) items rs := by
  unfold processMetric at h
  cases hmi : metricItems m resp with
  | error e => rw [hmi] at h; dsimp only at h; cases h
  | ok items =>
    rw [hmi] at h
    dsimp only at h
    exact ⟨items, rfl, mapRecords_ok _ items rs h⟩

theorem processItem_ok (name : String) (m : MetricSpec) (item : Json) (r : Record)
    (h : processItem name m item = Except.ok r) :
    ∃ (assetJ rawV : Json) (v : PyFloat),
      jsonGet item "asset" = Except.ok assetJ ∧
      jsonGet item m.key = Except.ok rawV ∧
      pyFloatOfJson rawV = some v ∧
      r = { name := "binance_" ++ strLower m.name, value := v,
            description := m.description, type := m.type,
            labels := dictUnion [("job", Json.str name), ("asset", assetJ)]
              (m.labels.map fun kv => (kv.1, Json.str kv.2)) } := by
  unfold processItem at h
  cases ha : jsonGet item "asset" with
  | error e => rw [ha] at h; dsimp only at h; cases h
  | ok assetJ =>
    rw [ha] at h
    dsimp only at h
    cases hk : jsonGet item m.key with
    | error e => rw [hk] at h; dsimp only at h; cases h
    | ok rawV =>
      rw [hk] at h
      dsimp only at h
      cases hv : pyFloatOfJson rawV with
      | none => rw [hv] at h; dsimp only at h; cases h
      | some v =>
        rw [hv] at h
        dsimp only at h
        cases h
        exact ⟨assetJ, rawV, v, rfl, rfl, hv, rfl⟩

theorem forall₂_mem_right {α β : Type} {R : α → β → Prop} :
    ∀ {l1 : List α} {l2 : List β}, List.Forall₂ R l1 l2 → ∀ {b : β}, b ∈ l2 →
      ∃ a ∈ l1, R a b := by
  intro l1 l2 h
  induction h with
  | nil => intro b hb; cases hb
  | cons hab htail ih =>
    intro b hb
    rcases List.mem_cons.mp hb with rfl | hb2
    · exact ⟨_, List.mem_cons_self _ _, hab⟩
    · obtain ⟨a, ha, hr⟩ := ih hb2
      exact ⟨a, List.mem_cons_of_mem _ ha, hr⟩

theorem forall₂_imp_mem {α β : Type} {R S : α → β → Prop} :
    ∀ {l1 : List α} {l2 : List β}, List.Forall₂ R l1 l2 →
      (∀ a ∈ l1, ∀ b, R a b → S a b) → List.Forall₂ S l1 l2 := by
  intro l1 l2 h
  induction h with
  | nil => intro _; exact List.Forall₂.nil
  | cons hab htail ih =>
    intro himp
    exact List.Forall₂.cons (himp _ (List.mem_cons_self _ _) _ hab)
      (ih fun a ha b hr => himp a (List.mem_cons_of_mem _ ha) b hr)

theorem mem_enum_snd {α : Type} {l : List α} {im : Nat × α} (him : im ∈ l.enum) :
    im.2 ∈ l :=
  List.enum_map_snd l ▸ List.mem_map_of_mem Prod.snd him

theorem catalog_label_keys (m : MetricSpec) (hm : m ∈ METRICS) :
    "job" ∉ dictKeys (m.labels.map fun kv => (kv.1, Json.str kv.2))
    ∧ "asset" ∉ dictKeys (m.labels.map fun kv => (kv.1, Json.str kv.2))
    ∧ (dictKeys (m.labels.map fun kv => (kv.1, Json.str kv.2))).Nodup := by
  fin_cases hm <;> exact ⟨by decide, by decide, by decide⟩

theorem labels_shape (name : String) (assetJ : Json) (e : AList Json)
    (hj : "job" ∉ dictKeys e) (ha : "asset" ∉ dictKeys e) (hnd : (dictKeys e).Nodup) :
    dictUnion [("job", Json.str name), ("asset", assetJ)] e =
      ("job", Json.str name) :: ("asset", assetJ) :: e
    ∧ dictGet (dictUnion [("job", Json.str name), ("asset", assetJ)] e) "job"
        = some (Json.str name)
    ∧ dictGet (dictUnion [("job", Json.str name), ("asset", assetJ)] e) "asset"
        = some assetJ := by
  have hdisj : ∀ k ∈ dictKeys e,
      k ∉ dictKeys [("job", Json.str name), ("asset", assetJ)] := by
    intro k hk hmem
    simp only [dictKeys, List.map_cons, List.map_nil, List.mem_cons,
      List.not_mem_nil, or_false] at hmem
    rcases hmem with rfl | rfl
    · exact hj hk
    · exact ha hk
  have hu : dictUnion [("job", Json.str name), ("asset", assetJ)] e =
      ("job", Json.str name) :: ("asset", assetJ) :: e := by
    rw [dictUnion_disjoint hdisj hnd]
    simp
  exact ⟨hu, by rw [hu]; rfl, by rw [hu]; rfl⟩

/-! ## C4: snapshot shape -/

/-- What C4 asserts of one emitted record relative to its line item: the
record's asset label is the item's `asset` field, its value is the item's
value field parsed as a float, its family name comes from the entry, and the
job label carries the exporter identity. -/
def recordMatches (name : String) (m : MetricSpec) (item : Json) (r : Record) : Prop :=
  (∃ assetJ : Json, jsonGet item "asset" = Except.ok assetJ ∧
      dictGet r.labels "asset" = some assetJ) ∧
  (∃ (rawV : Json) (v : PyFloat), jsonGet item m.key = Except.ok rawV ∧
      pyFloatOfJson rawV = some v ∧ r.value = v) ∧
  r.name = "binance_" ++ strLower m.name ∧
  dictGet r.labels "job" = some (Json.str name)

/-- C4: a successful snapshot is the concatenation, in catalog order, of
per-entry record lists, each matching that entry's unwrapped line items
pointwise in response order — exactly one record per line item, with the
value parsed from the entry's value field and the asset read from the item's
`asset` field, and nothing else. -/
theorem snapshot_shape_c4 (name : String) (resps : Nat → ApiResponse)
    (recs : List Record) (h : get_wallets name resps = Except.ok recs) :
    ∃ recss : List (List Record),
      recs = recss.flatten ∧
      List.Forall₂
        (fun im rs => ∃ items : List Json,
          metricItems im.2 (resps im.1) = Except.ok items ∧
          List.Forall₂ (recordMatches name im.2) items rs)
        METRICS.enum recss := by
  obtain ⟨recss, hout, hfa⟩ := getWalletsAux_ok name resps METRICS.enum recs h
  refine ⟨recss, hout, forall₂_imp_mem hfa ?_⟩
  intro im him rs hpm
  obtain ⟨items, hitems, hfa2⟩ := processMetric_ok name im.2 (resps im.1) rs hpm
  refine ⟨items, hitems, forall₂_imp_mem hfa2 ?_⟩
  intro item _ r hpi
  obtain ⟨assetJ, rawV, v, ha, hk, hv, rfl⟩ := processItem_ok name im.2 item r hpi
  obtain ⟨hjob, hasset, hnd⟩ := catalog_label_keys im.2 (mem_enum_snd him)
  obtain ⟨hu, hgj, hga⟩ := labels_shape name assetJ _ hjob hasset hnd
  exact ⟨⟨assetJ, ha, hga⟩, ⟨rawV, v, hk, hv, rfl⟩, rfl, hgj⟩

/-- First record of the closed snapshot instance. -/
def witnessRec0 : Record :=
  { name := "binance_earn_wallet", value := PyFloat.finite (mkRat 3 2),
    description := "Binance Earn Wallet", type := "gauge",
    labels := [("job", Json.str "binance-exporter"), ("asset", Json.str "BTC"),
               ("type", Json.str "flexible")] }

/-- Second record of the closed snapshot instance. -/
def witnessRec1 : Record :=
  { name := "binance_spot_wallet", value := PyFloat.finite (mkRat 23 10),
    description := "Binance Spot Wallet", type := "gauge",
    labels := [("job", Json.str "binance-exporter"), ("asset", Json.str "ETH")] }

/-- The records the oracle below produces. -/
def witnessRecs : List Record := [witnessRec0, witnessRec1]

/-- Snapshot oracle for the closed instances: a wrapped one-item flexible-earn
response, an empty locked-earn response, an empty funding response, and a
one-item spot response. -/
def witnessResps : Nat → ApiResponse := fun i =>
  if i = 0 then
    ⟨200, "", some (Json.obj [("rows", Json.arr
      [Json.obj [("asset", Json.str "BTC"), ("totalAmount", Json.str "1.5")]])])⟩
  else if i = 1 then ⟨200, "", some (Json.obj [("rows", Json.arr [])])⟩
  else if i = 2 then ⟨200, "", some (Json.arr [])⟩
  else ⟨200, "", some (Json.arr
    [Json.obj [("asset", Json.str "ETH"), ("free", Json.str "2.3")]])⟩

/-- Closed instance of C4 on a concrete snapshot. -/
theorem snapshot_shape_c4_witness :
    get_wallets "binance-exporter" witnessResps = Except.ok witnessRecs
    ∧ ∃ recss : List (List Record),
        witnessRecs = recss.flatten ∧
        List.Forall₂
          (fun im rs => ∃ items : List Json,
            metricItems im.2 (witnessResps im.1) = Except.ok items ∧
            List.Forall₂ (recordMatches "binance-exporter" im.2) items rs)
          METRICS.enum recss := by
  have h : get_wallets "binance-exporter" witnessResps = Except.ok witnessRecs := rfl
  exact ⟨h, snapshot_shape_c4 "binance-exporter" witnessResps witnessRecs h⟩

/-! ## C5: label composition -/

/-- C5: every record of a successful snapshot carries exactly the label set
job, asset, then the entry's fixed labels — every key present, none omitted
and none duplicated. -/
theorem label_composition_c5 (name : String) (resps : Nat → ApiResponse)
    (recs : List Record) (h : get_wallets name resps = Except.ok recs)
    (r : Record) (hr : r ∈ recs) :
    ∃ m ∈ METRICS, ∃ assetJ : Json,
      r.labels = ("job", Json.str name) :: ("asset", assetJ) ::
        (m.labels.map fun kv => (kv.1, Json.str kv.2))
      ∧ (dictKeys r.labels).Nodup
      ∧ dictGet r.labels "job" = some (Json.str name)
      ∧ dictGet r.labels "asset" = some assetJ
      ∧ ∀ kv ∈ m.labels, dictGet r.labels kv.1 = some (Json.str kv.2) := by
  obtain ⟨recss, rfl, hfa⟩ := getWalletsAux_ok name resps METRICS.enum recs h
  obtain ⟨rs, hrs, hrrs⟩ := List.mem_flatten.mp hr
  obtain ⟨im, him, hpm⟩ := forall₂_mem_right hfa hrs
  obtain ⟨items, hitems, hfa2⟩ := processMetric_ok name im.2 (resps im.1) rs hpm
  obtain ⟨item, _, hpi⟩ := forall₂_mem_right hfa2 hrrs
  obtain ⟨assetJ, rawV, v, ha, hk, hv, rfl⟩ := processItem_ok name im.2 item r hpi
  have hm : im.2 ∈ METRICS := mem_enum_snd him
  obtain ⟨hjob, hasset, hnd⟩ := catalog_label_keys im.2 hm
  obtain ⟨hu, hgj, hga⟩ := labels_shape name assetJ _ hjob hasset hnd
  refine ⟨im.2, hm, assetJ, hu, ?_, hgj, hga, ?_⟩
  · show (dictKeys (dictUnion [("job", Json.str name), ("asset", assetJ)]
      (im.2.labels.map fun kv => (kv.1, Json.str kv.2)))).Nodup
    rw [hu]
    simp only [dictKeys, List.map_cons]
    refine List.Nodup.cons ?_ (List.Nodup.cons hasset hnd)
    intro hmem
    rcases List.mem_cons.mp hmem with heq | hmem2
    · exact absurd heq (by decide)
    · exact hjob hmem2
  · intro kv hkv
    have hkmem : kv.1 ∈ dictKeys (im.2.labels.map fun kv2 => (kv2.1, Json.str kv2.2)) :=
      List.mem_map_of_mem Prod.fst
        (List.mem_map_of_mem (fun kv2 => (kv2.1, Json.str kv2.2)) hkv)
    have hne1 : ("job" : String) ≠ kv.1 := fun he => hjob (he ▸ hkmem)
    have hne2 : ("asset" : String) ≠ kv.1 := fun he => hasset (he ▸ hkmem)
    show dictGet (dictUnion [("job", Json.str name), ("asset", assetJ)]
      (im.2.labels.map fun kv2 => (kv2.1, Json.str kv2.2))) kv.1 = some (Json.str kv.2)
    rw [hu, dictGet_cons_ne _ _ _ _ hne1, dictGet_cons_ne _ _ _ _ hne2]
    exact dictGet_of_mem hnd
      (List.mem_map_of_mem (fun kv2 => (kv2.1, Json.str kv2.2)) hkv)

/-- Closed instance of C5 on the first record of the concrete snapshot. -/
theorem label_composition_c5_witness :
    get_wallets "binance-exporter" witnessResps = Except.ok witnessRecs
    ∧ witnessRec0 ∈ witnessRecs
    ∧ ∃ m ∈ METRICS, ∃ assetJ : Json,
        witnessRec0.labels = ("job", Json.str "binance-exporter") ::
          ("asset", assetJ) :: (m.labels.map fun kv => (kv.1, Json.str kv.2))
        ∧ (dictKeys witnessRec0.labels).Nodup
        ∧ dictGet witnessRec0.labels "job" = some (Json.str "binance-exporter")
        ∧ dictGet witnessRec0.labels "asset" = some assetJ
        ∧ ∀ kv ∈ m.labels, dictGet witnessRec0.labels kv.1 = some (Json.str kv.2) := by
  have h : get_wallets "binance-exporter" witnessResps = Except.ok witnessRecs := rfl
  exact ⟨h, List.mem_cons_self _ _,
    label_composition_c5 "binance-exporter" witnessResps witnessRecs h witnessRec0
      (List.mem_cons_self _ _)⟩

/-! ## C6: the unwrap decision -/

/-- Sequence selection as the C6 claim describes it: descend into the entry's
declared `unwrapKey` field when one is set, else take the body itself.  The
shipped catalog declares no such field — `MetricSpec`, mirroring the script's
`METRICS` entries, has no `unwrapKey` member — so under the claim every
entry's line-item sequence is the response body itself. -/
def claimUnwrap (_m : MetricSpec) (body : Json) : Json := body

/-- C6 counterexample: for the flexible-earn entry (which declares no unwrap
key) and the wrapped body `{"rows": []}` the code descends into the
hard-coded `rows` field, so the iterated sequence is not the body the claim
prescribes. -/
theorem unwrap_declarative_c6_cex :
    unwrapStep (METRICS.getD 0 default) (Json.obj [("rows", Json.arr [])]) =
      Except.ok (Json.arr [])
    ∧ Json.arr [] ≠
        claimUnwrap (METRICS.getD 0 default) (Json.obj [("rows", Json.arr [])]) :=
  ⟨rfl, fun h => Json.noConfusion h⟩

/-- C6 amended: the unwrap decision is hard-coded in the collector, keyed on
whether the entry's uri contains the substring "simple-earn" (true exactly
for the two earn-wallet entries), with the fixed field name "rows"; it is not
read from any declarative per-entry unwrap datum, so a new wrapped endpoint
under a different uri would need collector changes. -/
theorem unwrap_rule_c6 (m : MetricSpec) (hm : m ∈ METRICS) (body : Json) :
    (strContains m.uri "simple-earn" = true → unwrapStep m body = jsonGet body "rows")
    ∧ (strContains m.uri "simple-earn" = false → unwrapStep m body = Except.ok body)
    ∧ (strContains m.uri "simple-earn" = true ↔ m.name = "earn_wallet") := by
  refine ⟨fun h => ?_, fun h => ?_, ?_⟩
  · rw [unwrapStep, if_pos h]
  · rw [unwrapStep, if_neg (by simp [h])]
  · fin_cases hm <;> decide

/-- Closed instance of C6 (amended) at the first catalog entry. -/
theorem unwrap_rule_c6_witness :
    (strContains (METRICS.getD 0 default).uri "simple-earn" = true →
        unwrapStep (METRICS.getD 0 default) Json.null = jsonGet Json.null "rows")
    ∧ (strContains (METRICS.getD 0 default).uri "simple-earn" = false →
        unwrapStep (METRICS.getD 0 default) Json.null = Except.ok Json.null)
    ∧ (strContains (METRICS.getD 0 default).uri "simple-earn" = true ↔
        (METRICS.getD 0 default).name = "earn_wallet") :=
  unwrap_rule_c6 _ (by decide) Json.null

/-! ## C8: fatality of data-shape errors -/

/-- Oracle whose flexible-earn response carries the value string "inf". -/
def infResps : Nat → ApiResponse := fun i =>
  if i = 0 then
    ⟨200, "", some (Json.obj [("rows", Json.arr
      [Json.obj [("asset", Json.str "BTC"), ("totalAmount", Json.str "inf")]])])⟩
  else if i = 1 then ⟨200, "", some (Json.obj [("rows", Json.arr [])])⟩
  else ⟨200, "", some (Json.arr [])⟩

/-- C8 counterexample: the value string "inf" contains no digit at all, so it
is not a decimal numeral, yet the snapshot succeeds and emits a record with
an infinite value — Python float conversion accepts inf/infinity/nan. -/
theorem nonnumeral_fatal_c8_cex :
    (∀ c ∈ ("inf").data, c.isDigit = false)
    ∧ pyFloatOfString "inf" = some (PyFloat.infty false)
    ∧ get_wallets "job" infResps = Except.ok
        [{ name := "binance_earn_wallet", value := PyFloat.infty false,
           description := "Binance Earn Wallet", type := "gauge",
           labels := [("job", Json.str "job"), ("asset", Json.str "BTC"),
                      ("type", Json.str "flexible")] }] :=
  ⟨by decide, rfl, rfl⟩

/-- Oracle whose body never parses, for the closed C8 instance. -/
def c8FailResps : Nat → ApiResponse := fun _ => ⟨200, "not json", none⟩

/-- C8 amended: a JSON decode failure, a missing unwrap/asset/value field and
a value the float conversion rejects are each fatal for the whole snapshot —
no record is produced from them and no partial snapshot is returned; but the
acceptance boundary is Python float conversion, which besides decimal
numerals also admits inf/infinity/nan forms, so those non-numeral strings
produce records instead of fatality. -/
theorem snapshot_fatal_c8 (name : String) (resps : Nat → ApiResponse)
    (i : Nat) (m : MetricSpec) (him : (i, m) ∈ METRICS.enum) (e : Err)
    (hbad : processMetric name m (resps i) = Except.error e) :
    (∀ recs, get_wallets name resps ≠ Except.ok recs)
    ∧ (∀ t : String, parsedOf ⟨200, t, none⟩ = Except.error Err.jsonError)
    ∧ (∀ (items : List Json) (item : Json) (e2 : Err), item ∈ items →
        processItem name m item = Except.error e2 →
        ∃ e3, mapRecords (processItem name m) items = Except.error e3)
    ∧ (∀ fields : List (String × Json), dictGet fields "asset" = none →
        processItem name m (Json.obj fields) = Except.error (Err.keyError "asset"))
    ∧ (∀ (fields : List (String × Json)) (assetJ : Json),
        dictGet fields "asset" = some assetJ → dictGet fields m.key = none →
        processItem name m (Json.obj fields) = Except.error (Err.keyError m.key))
    ∧ (∀ (fields : List (String × Json)) (assetJ rawV : Json),
        dictGet fields "asset" = some assetJ → dictGet fields m.key = some rawV →
        pyFloatOfJson rawV = none →
        processItem name m (Json.obj fields) = Except.error (floatErr rawV)) := by
  refine ⟨?_, fun t => rfl, ?_, ?_, ?_, ?_⟩
  · intro recs hok
    obtain ⟨e2, he2⟩ := getWalletsAux_error name resps METRICS.enum i m him
      (fun recs2 hok2 => by rw [hbad] at hok2; cases hok2) []
    rw [get_wallets, he2] at hok
    cases hok
  · exact fun items item e2 hmem hpi => mapRecords_error _ items item e2 hmem hpi
  · intro fields hnone
    simp [processItem, jsonGet, hnone]
  · intro fields assetJ hsome hnone
    simp [processItem, jsonGet, hsome, hnone]
  · intro fields assetJ rawV hsome hsome2 hfloat
    simp [processItem, jsonGet, hsome, hsome2, hfloat]

/-- Closed instance of C8 (amended): an unparseable first response aborts the
whole snapshot. -/
theorem snapshot_fatal_c8_witness :
    ((0, METRICS.getD 0 default) ∈ METRICS.enum)
    ∧ processMetric "job" (METRICS.getD 0 default) (c8FailResps 0) =
        Except.error Err.jsonError
    ∧ ((∀ recs, get_wallets "job" c8FailResps ≠ Except.ok recs)
       ∧ (∀ t : String, parsedOf ⟨200, t, none⟩ = Except.error Err.jsonError)
       ∧ (∀ (items : List Json) (item : Json) (e2 : Err), item ∈ items →
            processItem "job" (METRICS.getD 0 default) item = Except.error e2 →
            ∃ e3, mapRecords (processItem "job" (METRICS.getD 0 default)) items =
              Except.error e3)
       ∧ (∀ fields : List (String × Json), dictGet fields "asset" = none →
            processItem "job" (METRICS.getD 0 default) (Json.obj fields) =
              Except.error (Err.keyError "asset"))
       ∧ (∀ (fields : List (String × Json)) (assetJ : Json),
            dictGet fields "asset" = some assetJ →
            dictGet fields (METRICS.getD 0 default).key = none →
            processItem "job" (METRICS.getD 0 default) (Json.obj fields) =
              Except.error (Err.keyError (METRICS.getD 0 default).key))
       ∧ (∀ (fields : List (String × Json)) (assetJ rawV : Json),
            dictGet fields "asset" = some assetJ →
            dictGet fields (METRICS.getD 0 default).key = some rawV →
            pyFloatOfJson rawV = none →
            processItem "job" (METRICS.getD 0 default) (Json.obj fields) =
              Except.error (floatErr rawV))) := by
  have him : (0, METRICS.getD 0 default) ∈ METRICS.enum := by decide
  have hbad : processMetric "job" (METRICS.getD 0 default) (c8FailResps 0) =
      Except.error Err.jsonError := rfl
  exact ⟨him, hbad,
    snapshot_fatal_c8 "job" c8FailResps 0 (METRICS.getD 0 default) him
      Err.jsonError hbad⟩

end BinanceExporter
